import Mathlib

/-!
Verification of the vacel front end (parser / AST / pretty-printer)
against its natural-language specification.

The development shallowly embeds:
  * the prettier document algebra used by the printer (`Doc`),
  * the AST node model of `src/nodes/index.ts` (`Expression`, `Statement`, …),
  * the print methods of `src/nodes/index.ts` (`printExpr`, `printStmt`,
    `printStatements`),
  * the child-enumeration primitive `BaseNode.next` (`next`),
  * the literal classifier `parseLiteral` of the parser,
  * the implicit-concatenation loop `parseExpr` of
    `src/parser/expression/index.ts`, with the token cursor and the
    expression sub-parsers it calls (which are not part of the sources)
    modelled from the specification.
-/

namespace Vacel

/-! ### The document algebra

Embeds the subset of prettier's `builders` that the printer uses:
text, concat, group, indent, line, softline, hardline, ifBreak.
`DocList` is an explicit list type so that all recursions are plainly
structural. -/

mutual

inductive Doc where
  | text (s : String)
  | concat (ds : DocList)
  | group (d : Doc)
  | indent (d : Doc)
  | line
  | softline
  | hardline
  | ifBreak (whenBroken whenFlat : Doc)

inductive DocList where
  | nil
  | cons (d : Doc) (tl : DocList)

end

/-- Converts a Lean list of documents into the explicit `DocList`. -/
def DocList.ofList : List Doc → DocList
  | [] => .nil
  | d :: tl => .cons d (DocList.ofList tl)

/-- Shorthand for `b.concat([...])` on a Lean list literal. -/
def dconcat (ds : List Doc) : Doc :=
  Doc.concat (DocList.ofList ds)

/-- Models `b.join(sep, docs)`: intersperses `sep` between the documents. -/
def joinSep (sep : Doc) : List Doc → List Doc
  | [] => []
  | [d] => [d]
  | d :: tl => d :: sep :: joinSep sep tl

/-- Models `b.join` itself (which wraps the interspersed parts in a concat). -/
def djoin (sep : Doc) (ds : List Doc) : Doc :=
  dconcat (joinSep sep ds)

mutual

/-- Flat-mode rendering of a document, per the spec's semantics of the
algebra (§4.3): a soft line break renders as a space if flat (`line`) or as
nothing (`softline`), a hard break is always a newline, an `ifBreak`
fragment renders its flat branch, grouping and indentation are neutral in
flat mode. -/
def flatRender : Doc → String
  | .text s => s
  | .concat ds => flatRenderList ds
  | .group d => flatRender d
  | .indent d => flatRender d
  | .line => " "
  | .softline => ""
  | .hardline => "\n"
  | .ifBreak _ whenFlat => flatRender whenFlat

/-- Flat-mode rendering of a document list (concatenation). -/
def flatRenderList : DocList → String
  | .nil => ""
  | .cons d tl => flatRender d ++ flatRenderList tl

end

/-! ### Source locations (`src/nodes/index.ts`, `Position` / `Location`) -/

structure Position where
  offset : Nat
  line : Nat
  column : Nat
deriving Repr, DecidableEq

/-- Source span. The source calls the second field `end`; that is a Lean
keyword, so it is named `endPos` here. -/
structure Location where
  start : Position
  endPos : Position
deriving Repr, DecidableEq

/-! ### The AST node model (`src/nodes/index.ts`)

Each constructor carries exactly the fields its class assigns in its
constructor, in the same order, plus the optional `loc` every `BaseNode`
carries.  Child positions typed `Identifier | Member` (etc.) in the source
are embedded with the full `Expression` type; the print methods and the
child enumeration do not depend on the narrowing.  Explicit list types
(`ExprList`, `StmtList`, `BackendDefList`) keep every recursion
structural. `IfAlt` embeds `alternative?: IfStatement | Array<Statement>`,
and `BackendValue` embeds `value: Expression | Array<BackendDefinition>`. -/

/-- Table entry (`TableDefinition`): a key/value string pair. -/
structure TableDef where
  key : String
  value : String
  loc : Option Location
deriving Repr

mutual

inductive Expression where
  | booleanLiteral (value : String) (loc : Option Location)
  | stringLiteral (value : String) (loc : Option Location)
  | multilineLiteral (value : String) (loc : Option Location)
  | durationLiteral (value : String) (loc : Option Location)
  | numericLiteral (value : String) (loc : Option Location)
  | identifier (name : String) (loc : Option Location)
  | ip (value : String) (cidr : Option Nat) (loc : Option Location)
  | member (base : Expression) (mem : Expression) (loc : Option Location)
  | valuePair (base : Expression) (name : Expression) (loc : Option Location)
  | booleanExpression (body : Expression) (loc : Option Location)
  | unaryExpression (operator : String) (argument : Expression)
      (loc : Option Location)
  | funCallExpression (callee : Expression) (args : ExprList)
      (loc : Option Location)
  | concatExpression (body : ExprList) (loc : Option Location)
  | binaryExpression (left : Expression) (right : Expression)
      (operator : String) (loc : Option Location)
  | logicalExpression (left : Expression) (right : Expression)
      (operator : String) (loc : Option Location)

inductive ExprList where
  | nil
  | cons (e : Expression) (tl : ExprList)

inductive Statement where
  | expressionStatement (body : Expression) (loc : Option Location)
  | includeStatement (module : Expression) (loc : Option Location)
  | importStatement (module : Expression) (loc : Option Location)
  | callStatement (subroutine : Expression) (loc : Option Location)
  | declareStatement (id : Expression) (valueType : String)
      (loc : Option Location)
  | addStatement (left : Expression) (right : Expression) (operator : String)
      (loc : Option Location)
  | setStatement (left : Expression) (right : Expression) (operator : String)
      (loc : Option Location)
  | unsetStatement (id : Expression) (loc : Option Location)
  | returnStatement (action : String) (loc : Option Location)
  | errorStatement (status : Nat) (message : Option Expression)
      (loc : Option Location)
  | restartStatement (loc : Option Location)
  | syntheticStatement (response : Expression) (loc : Option Location)
  | logStatement (content : Expression) (loc : Option Location)
  | ifStatement (test : Expression) (consequent : StmtList) (alternative : IfAlt)
      (loc : Option Location)
  | subroutineStatement (id : Expression) (body : StmtList)
      (loc : Option Location)
  | aclStatement (id : Expression) (body : ExprList) (loc : Option Location)
  | backendStatement (id : Expression) (body : BackendDefList)
      (loc : Option Location)
  | tableStatement (id : Expression) (body : List TableDef)
      (loc : Option Location)

inductive StmtList where
  | nil
  | cons (s : Statement) (tl : StmtList)

inductive IfAlt where
  | noAlt
  | elseIf (s : Statement)
  | elseBlock (b : StmtList)

inductive BackendDef where
  | mk (key : String) (value : BackendValue) (loc : Option Location)

inductive BackendValue where
  | expr (e : Expression)
  | defs (ds : BackendDefList)

inductive BackendDefList where
  | nil
  | cons (d : BackendDef) (tl : BackendDefList)

end

/-- Whole program (`Program`): an ordered statement list. -/
structure Program where
  body : StmtList
  loc : Option Location

def ExprList.toList : ExprList → List Expression
  | .nil => []
  | .cons e tl => e :: ExprList.toList tl

def StmtList.toList : StmtList → List Statement
  | .nil => []
  | .cons s tl => s :: StmtList.toList tl

def BackendDefList.toList : BackendDefList → List BackendDef
  | .nil => []
  | .cons d tl => d :: BackendDefList.toList tl

/-- The optional source location every statement carries. -/
def Statement.loc : Statement → Option Location
  | .expressionStatement _ l => l
  | .includeStatement _ l => l
  | .importStatement _ l => l
  | .callStatement _ l => l
  | .declareStatement _ _ l => l
  | .addStatement _ _ _ l => l
  | .setStatement _ _ _ l => l
  | .unsetStatement _ l => l
  | .returnStatement _ l => l
  | .errorStatement _ _ l => l
  | .restartStatement l => l
  | .syntheticStatement _ l => l
  | .logStatement _ l => l
  | .ifStatement _ _ _ l => l
  | .subroutineStatement _ _ l => l
  | .aclStatement _ _ l => l
  | .backendStatement _ _ l => l
  | .tableStatement _ _ l => l

/-! ### The pretty-printer (`print` methods of `src/nodes/index.ts`)

`State` is the printer's running line counter.  Expression printing never
touches the counter (only statement-list printing does), so `printExpr`
is a pure function of the state; statement printing threads the state
explicitly, mirroring the in-place mutation of the source.  The brace
characters that appear in the source's string fragments are written with
their character codes. -/

structure State where
  lineNum : Nat
deriving Repr, DecidableEq

/-- Tests for `instanceof Member`. -/
def isMember : Expression → Bool
  | .member .. => true
  | _ => false

/-- Tests for `instanceof BinaryExpression`. -/
def isBinary : Expression → Bool
  | .binaryExpression .. => true
  | _ => false

/-- The parenthesization condition of `LogicalExpression.print`:
the operand is itself a `LogicalExpression`, the parent operator is `||`
and the operand's operator is `&&`. -/
def parenAndUnderOr (parentOp : String) : Expression → Bool
  | .logicalExpression _ _ childOp _ => parentOp == "||" && childOp == "&&"
  | _ => false

mutual

/-- The `print(state, { neverBreak, broken })` methods of the expression
classes of `src/nodes/index.ts`.  Calls written `x.print(state)` or
`x.print()` in the source pass the default option values `false`. -/
def printExpr : Expression → State → Bool → Bool → Doc
  | .booleanLiteral v _, _, _, _ => Doc.text v
  | .stringLiteral v _, _, _, _ => Doc.text v
  | .multilineLiteral v _, _, _, _ => Doc.text v
  | .durationLiteral v _, _, _, _ => Doc.text v
  | .numericLiteral v _, _, _, _ => Doc.text v
  | .identifier n _, _, _, _ => Doc.text n
  | .ip v cidr _, _, _, _ =>
      -- `this.cidr ? `"${v}"/${cidr}` : `"${v}"``; `undefined` and `0`
      -- are the falsy values of `cidr`
      Doc.text (match cidr with
        | some c => if c != 0 then "\"" ++ v ++ "\"/" ++ toString c
            else "\"" ++ v ++ "\""
        | none => "\"" ++ v ++ "\"")
  | .member base mem _, st, neverBreak, broken =>
      let shouldBreak := !neverBreak && (isMember base || broken)
      dconcat [Doc.group (dconcat [
        printExpr base st neverBreak shouldBreak,
        Doc.indent (dconcat [
          (if shouldBreak then Doc.softline else Doc.text ""),
          Doc.text ".",
          printExpr mem st false false])])]
  | .valuePair base name _, st, _, _ =>
      dconcat [printExpr base st false false, Doc.text ":",
        printExpr name st false false]
  | .booleanExpression body _, st, _, _ =>
      Doc.group (dconcat [
        Doc.indent (dconcat [Doc.text "(",
          Doc.ifBreak Doc.softline (Doc.text ""),
          printExpr body st false false]),
        Doc.ifBreak Doc.softline (Doc.text ""),
        Doc.text ")"])
  | .unaryExpression op arg _, st, _, _ =>
      dconcat [Doc.text op, printExpr arg st false false]
  | .funCallExpression callee args _, st, _, _ =>
      dconcat [
        printExpr callee st false false,
        Doc.text "(",
        Doc.group (dconcat [
          Doc.indent (dconcat [
            Doc.ifBreak Doc.line (Doc.text ""),
            djoin (dconcat [Doc.text ",", Doc.line]) (printExprList args st),
            Doc.ifBreak (Doc.text ",") (Doc.text "")]),
          Doc.ifBreak Doc.line (Doc.text "")]),
        Doc.text ")"]
  | .concatExpression body _, st, _, _ =>
      Doc.group (Doc.indent (djoin Doc.line (printExprList body st)))
  | .binaryExpression left right op _, st, _, _ =>
      let leftD :=
        if isBinary left then
          dconcat [Doc.text "(", printExpr left st false false, Doc.text ")"]
        else printExpr left st false false
      Doc.group (dconcat [leftD, Doc.text " ",
        Doc.indent (dconcat [Doc.text op, Doc.line,
          printExpr right st false false])])
  | .logicalExpression left right op _, st, _, _ =>
      let leftD :=
        if parenAndUnderOr op left then
          dconcat [Doc.text "(", printExpr left st false false, Doc.text ")"]
        else printExpr left st false false
      let rightD :=
        if parenAndUnderOr op right then
          dconcat [Doc.text "(", printExpr right st false false, Doc.text ")"]
        else printExpr right st false false
      Doc.group (dconcat [leftD, Doc.text " ",
        Doc.indent (dconcat [Doc.text op, Doc.line, rightD])])

/-- Maps `printExpr` over an expression list (the source's `.map((n) =>
n.print(state))`). -/
def printExprList : ExprList → State → List Doc
  | .nil, _ => []
  | .cons e tl, st => printExpr e st false false :: printExprList tl st

end

/-- Wraps a statement-document list for output: the source pushes a
`hardline` after every statement, then `doc.pop()` removes the final one
before `b.concat`. -/
def wrapStatements (ds : List Doc) : Doc :=
  Doc.concat (DocList.ofList ds.dropLast)

/-- Print method of `TableDefinition`. -/
def printTableDef (td : TableDef) : Doc :=
  dconcat [Doc.text td.key, Doc.text ":", Doc.text td.value]

/-- The only falsy document value that can reach
`[...].filter(Boolean)` in `ErrorStatement.print`: the empty string. -/
def jsFalsyDoc : Doc → Bool
  | .text s => s == ""
  | _ => false

mutual

/-- Print method of `BackendDefinition` (pure in the line counter). -/
def printBackendDef : BackendDef → State → Doc
  | .mk key value _, st =>
      let printedValue :=
        match value with
        | .defs ds =>
            dconcat [Doc.text "\x7b",
              Doc.indent (dconcat [Doc.hardline,
                djoin Doc.hardline (printBackendDefList ds st)]),
              Doc.hardline, Doc.text "\x7d"]
        | .expr e => dconcat [printExpr e st false false, Doc.text ";"]
      dconcat [Doc.text ".", Doc.text key, Doc.text " = ", printedValue]

/-- Maps `printBackendDef` over a definition list. -/
def printBackendDefList : BackendDefList → State → List Doc
  | .nil, _ => []
  | .cons d tl, st => printBackendDef d st :: printBackendDefList tl st

end

mutual

/-- The `print(state)` methods of the statement classes of
`src/nodes/index.ts`; the returned state is the line counter after the
in-place mutations the source performs during the call.  The
`printStatements(state, …)` calls of the source appear as
`printStmtsAux` followed by `wrapStatements` (see `printStatements`
below, which is definitionally that composition). -/
def printStmt : Statement → State → Doc × State
  | .expressionStatement body _, st =>
      (dconcat [printExpr body st false false, Doc.text ";"], st)
  | .includeStatement m _, st =>
      (dconcat [Doc.text "include ", printExpr m st false false,
        Doc.text ";"], st)
  | .importStatement m _, st =>
      (dconcat [Doc.text "import ", printExpr m st false false,
        Doc.text ";"], st)
  | .callStatement sub _, st =>
      (dconcat [Doc.text "call ", printExpr sub st false false,
        Doc.text ";"], st)
  | .declareStatement id vt _, st =>
      (dconcat [Doc.text "declare ", Doc.text "local ",
        printExpr id st true false, Doc.text " ", Doc.text vt,
        Doc.text ";"], st)
  | .addStatement l r op _, st =>
      (Doc.group (Doc.indent (dconcat [Doc.text "add ",
        printExpr l st true false, Doc.text " ", Doc.text op, Doc.line,
        printExpr r st true false, Doc.text ";"])), st)
  | .setStatement l r op _, st =>
      (Doc.group (Doc.indent (dconcat [Doc.text "set ",
        printExpr l st true false, Doc.text " ", Doc.text op, Doc.line,
        printExpr r st true false, Doc.text ";"])), st)
  | .unsetStatement id _, st =>
      (dconcat [Doc.text "unset ", printExpr id st true false,
        Doc.text ";"], st)
  | .returnStatement action _, st =>
      (dconcat [Doc.text "return ", Doc.text "(", Doc.text action,
        Doc.text ")", Doc.text ";"], st)
  | .errorStatement status message _, st =>
      let msgPart : List Doc :=
        match message with
        | some m =>
            let d := printExpr m st false false
            if jsFalsyDoc d then [] else [d]
        | none => []
      (dconcat [djoin (Doc.text " ")
        ([Doc.text "error", Doc.text (toString status)] ++ msgPart),
        Doc.text ";"], st)
  | .restartStatement _, st => (Doc.text "restart;", st)
  | .syntheticStatement r _, st =>
      (dconcat [Doc.text "synthetic ", printExpr r st false false,
        Doc.text ";"], st)
  | .logStatement c _, st =>
      (dconcat [Doc.text "log ", printExpr c st false false,
        Doc.text ";"], st)
  | .ifStatement test consequent alternative _, st =>
      let (consDs, st1) := printStmtsAux st consequent
      let doc : List Doc := [
        Doc.text "if ",
        Doc.group (dconcat [
          Doc.indent (dconcat [Doc.text "(",
            Doc.ifBreak Doc.hardline (Doc.text ""),
            printExpr test st false false]),
          Doc.ifBreak Doc.hardline (Doc.text ""),
          Doc.text ") "]),
        Doc.text "\x7b",
        Doc.indent (wrapStatements consDs),
        Doc.hardline,
        Doc.text "\x7d"]
      match alternative with
      | .noAlt => (dconcat doc, st1)
      | .elseBlock b =>
          let (altDs, st2) := printStmtsAux st1 b
          (dconcat (doc ++ [Doc.text " else \x7b",
            Doc.indent (wrapStatements altDs), Doc.hardline,
            Doc.text "\x7d"]), st2)
      | .elseIf s =>
          let (altD, st2) := printStmt s st1
          (dconcat (doc ++ [Doc.text " else ", altD]), st2)
  | .subroutineStatement id body _, st =>
      let (bodyDs, st1) := printStmtsAux st body
      (dconcat [Doc.text "sub ", printExpr id st false false,
        Doc.text " \x7b", Doc.indent (wrapStatements bodyDs),
        Doc.hardline, Doc.text "\x7d"], st1)
  | .aclStatement id body _, st =>
      (dconcat [Doc.text "acl ", printExpr id st false false,
        Doc.text " \x7b",
        Doc.indent (dconcat [Doc.hardline,
          djoin Doc.hardline
            ((printExprList body st).map (fun d =>
              dconcat [d, Doc.text ";"]))]),
        Doc.hardline, Doc.text "\x7d"], st)
  | .backendStatement id body _, st =>
      (dconcat [Doc.text "backend ", printExpr id st false false,
        Doc.text " ",
        dconcat [Doc.text "\x7b",
          Doc.indent (dconcat [Doc.hardline,
            djoin Doc.hardline (printBackendDefList body st)]),
          Doc.hardline, Doc.text "\x7d"]], st)
  | .tableStatement id body _, st =>
      (dconcat [Doc.text "table ", printExpr id st false false,
        Doc.text " \x7b",
        Doc.indent (dconcat [Doc.hardline,
          djoin (dconcat [Doc.text ",", Doc.hardline])
            (body.map printTableDef)]),
        Doc.hardline, Doc.text "\x7d"], st)

/-- The statement-list loop of `printStatements` (`src/nodes/index.ts`):
for each statement with a recorded location whose start line exceeds the
running counter, that many hard breaks are pushed and the counter
advances to that line; each statement is then printed followed by a hard
break, and the counter is incremented. -/
def printStmtsAux : State → StmtList → List Doc × State
  | st, .nil => ([], st)
  | st, .cons s rest =>
      let (pre, st1) : List Doc × State :=
        match s.loc with
        | some l =>
            if st.lineNum < l.start.line then
              (List.replicate (l.start.line - st.lineNum) Doc.hardline,
                { st with lineNum := l.start.line })
            else ([], st)
        | none => ([], st)
      let (d, st2) := printStmt s st1
      let (ds, st3) := printStmtsAux { st2 with lineNum := st2.lineNum + 1 } rest
      (pre ++ d :: Doc.hardline :: ds, st3)

end

/-- The `printStatements` helper of `src/nodes/index.ts`: runs the loop,
removes the trailing hard break (`doc.pop()`), and concatenates. -/
def printStatements (st : State) (stmts : StmtList) : Doc × State :=
  let (ds, st') := printStmtsAux st stmts
  (wrapStatements ds, st')

/-- Print method of `Program`. -/
def printProgram (p : Program) (st : State) : Doc × State :=
  printStatements st p.body

/-! ### Child enumeration (`BaseNode.next`, `src/nodes/index.ts`)

`next()` takes the node's own enumerable property values in insertion
order (`Object.values(this)`), keeps those that are arrays or node
instances, and flattens one level of arrays.  `ANode` is the common node
type of the enumeration, `FieldVal` the possible property values:
strings, numbers, an absent/`undefined` value, a location object, a node,
or an array of nodes.  Field order follows the class constructors; the
`type` tag and the optional `loc` are included as the scalar values they
are (their exact position among the scalars is irrelevant to `next`,
which drops every scalar). -/

inductive ANode where
  | expr (e : Expression)
  | stmt (s : Statement)
  | bdef (b : BackendDef)
  | tdef (t : TableDef)
  | prog (p : Program)

inductive FieldVal where
  | vstr (s : String)
  | vnum (n : Nat)
  | vnone
  | vloc (l : Location)
  | vnode (n : ANode)
  | varr (ns : List ANode)

/-- Property entry for the optional `loc` field. -/
def locVal : Option Location → List FieldVal
  | some l => [.vloc l]
  | none => []

/-- Property entry for `Ip.cidr` (`number | undefined`). -/
def cidrVal : Option Nat → FieldVal
  | some c => .vnum c
  | none => .vnone

/-- Property entry for an optional expression field
(`ErrorStatement.message`). -/
def optExprVal : Option Expression → FieldVal
  | some e => .vnode (.expr e)
  | none => .vnone

/-- Property entry for `IfStatement.alternative`
(`IfStatement | Array<Statement> | undefined`). -/
def altVal : IfAlt → FieldVal
  | .noAlt => .vnone
  | .elseIf s => .vnode (.stmt s)
  | .elseBlock b => .varr (b.toList.map ANode.stmt)

/-- Property entry for `BackendDefinition.value`
(`Expression | Array<BackendDefinition>`). -/
def backendVal : BackendValue → FieldVal
  | .expr e => .vnode (.expr e)
  | .defs ds => .varr (ds.toList.map ANode.bdef)

/-- The own enumerable property values of each node, in field order:
the `type` tag string first, then the fields the class constructor
assigns in assignment order, then the optional `loc`. -/
def fieldValues : ANode → List FieldVal
  | .expr (.booleanLiteral v l) => [.vstr "BooleanLiteral", .vstr v] ++ locVal l
  | .expr (.stringLiteral v l) => [.vstr "StringLiteral", .vstr v] ++ locVal l
  | .expr (.multilineLiteral v l) =>
      [.vstr "MultilineLiteral", .vstr v] ++ locVal l
  | .expr (.durationLiteral v l) =>
      [.vstr "DurationLiteral", .vstr v] ++ locVal l
  | .expr (.numericLiteral v l) => [.vstr "NumericLiteral", .vstr v] ++ locVal l
  | .expr (.identifier n l) => [.vstr "Identifier", .vstr n] ++ locVal l
  | .expr (.ip v c l) => [.vstr "Ip", .vstr v, cidrVal c] ++ locVal l
  | .expr (.member b m l) =>
      [.vstr "Member", .vnode (.expr b), .vnode (.expr m)] ++ locVal l
  | .expr (.valuePair b n l) =>
      [.vstr "ValuePair", .vnode (.expr b), .vnode (.expr n)] ++ locVal l
  | .expr (.booleanExpression b l) =>
      [.vstr "BooleanExpression", .vnode (.expr b)] ++ locVal l
  | .expr (.unaryExpression op a l) =>
      [.vstr "UnaryExpression", .vstr op, .vnode (.expr a)] ++ locVal l
  | .expr (.funCallExpression c args l) =>
      [.vstr "FunCallExpression", .vnode (.expr c),
        .varr (args.toList.map ANode.expr)] ++ locVal l
  | .expr (.concatExpression b l) =>
      [.vstr "ConcatExpression", .varr (b.toList.map ANode.expr)] ++ locVal l
  | .expr (.binaryExpression lft r op l) =>
      [.vstr "BinaryExpression", .vnode (.expr lft), .vnode (.expr r),
        .vstr op] ++ locVal l
  | .expr (.logicalExpression lft r op l) =>
      [.vstr "LogicalExpression", .vnode (.expr lft), .vnode (.expr r),
        .vstr op] ++ locVal l
  | .stmt (.expressionStatement b l) =>
      [.vstr "ExpressionStatement", .vnode (.expr b)] ++ locVal l
  | .stmt (.includeStatement m l) =>
      [.vstr "IncludeStatement", .vnode (.expr m)] ++ locVal l
  | .stmt (.importStatement m l) =>
      [.vstr "ImportStatement", .vnode (.expr m)] ++ locVal l
  | .stmt (.callStatement s l) =>
      [.vstr "CallStatement", .vnode (.expr s)] ++ locVal l
  | .stmt (.declareStatement id vt l) =>
      [.vstr "DeclareStatement", .vnode (.expr id), .vstr vt] ++ locVal l
  | .stmt (.addStatement lft r op l) =>
      [.vstr "AddStatement", .vnode (.expr lft), .vnode (.expr r),
        .vstr op] ++ locVal l
  | .stmt (.setStatement lft r op l) =>
      [.vstr "SetStatement", .vnode (.expr lft), .vnode (.expr r),
        .vstr op] ++ locVal l
  | .stmt (.unsetStatement id l) =>
      [.vstr "UnsetStatement", .vnode (.expr id)] ++ locVal l
  | .stmt (.returnStatement a l) =>
      [.vstr "ReturnStatement", .vstr a] ++ locVal l
  | .stmt (.errorStatement s m l) =>
      [.vstr "ErrorStatement", .vnum s, optExprVal m] ++ locVal l
  | .stmt (.restartStatement l) => [.vstr "RestartStatement"] ++ locVal l
  | .stmt (.syntheticStatement r l) =>
      [.vstr "SyntheticStatement", .vnode (.expr r)] ++ locVal l
  | .stmt (.logStatement c l) =>
      [.vstr "LogStatement", .vnode (.expr c)] ++ locVal l
  | .stmt (.ifStatement t c a l) =>
      [.vstr "IfStatement", .vnode (.expr t),
        .varr (c.toList.map ANode.stmt), altVal a] ++ locVal l
  | .stmt (.subroutineStatement id b l) =>
      [.vstr "SubroutineStatement", .vnode (.expr id),
        .varr (b.toList.map ANode.stmt)] ++ locVal l
  | .stmt (.aclStatement id b l) =>
      [.vstr "AclStatement", .vnode (.expr id),
        .varr (b.toList.map ANode.expr)] ++ locVal l
  | .stmt (.backendStatement id b l) =>
      [.vstr "BackendStatement", .vnode (.expr id),
        .varr (b.toList.map ANode.bdef)] ++ locVal l
  | .stmt (.tableStatement id b l) =>
      [.vstr "TableStatement", .vnode (.expr id),
        .varr (b.map ANode.tdef)] ++ locVal l
  | .bdef (.mk k v l) => [.vstr "BackendDefinition", .vstr k, backendVal v]
      ++ locVal l
  | .tdef t => [.vstr "TableDefinition", .vstr t.key, .vstr t.value]
      ++ locVal t.loc
  | .prog p => [.vstr "Program", .varr (p.body.toList.map ANode.stmt)]
      ++ locVal p.loc

/-- Contribution of one property value to `next()`: the filter keeps
arrays and node instances, and `flat` splices an array's elements while
keeping a node as a single element; every scalar contributes nothing. -/
def childVals : FieldVal → List ANode
  | .vnode n => [n]
  | .varr ns => ns
  | _ => []

/-- The child-enumeration primitive `BaseNode.next()`:
`flat(Object.values(this).filter((v) => Array.isArray(v) || v instanceof
BaseNode))`. -/
def next (n : ANode) : List ANode :=
  (fieldValues n).flatMap childVals

/-- Spec-side children of the optional `message` field: the node when
present, nothing otherwise. -/
def messageChildren : Option Expression → List ANode
  | some e => [.expr e]
  | none => []

/-- Spec-side children of the `alternative` field: the chained
conditional, or the terminal block's statements, or nothing. -/
def altChildren : IfAlt → List ANode
  | .noAlt => []
  | .elseIf s => [.stmt s]
  | .elseBlock b => b.toList.map ANode.stmt

/-- Spec-side children of a backend definition's `value` field: the
expression, or the nested definitions. -/
def backendChildren : BackendValue → List ANode
  | .expr e => [.expr e]
  | .defs ds => ds.toList.map ANode.bdef

/-- Spec-side definition of the enumeration ("every node exposes an
ordered enumeration of its immediate structural children — arrays and
nested nodes only, scalar fields are not children"): the structural
children of each variant, written out explicitly in field order. -/
def childrenSpec : ANode → List ANode
  | .expr (.booleanLiteral _ _) => []
  | .expr (.stringLiteral _ _) => []
  | .expr (.multilineLiteral _ _) => []
  | .expr (.durationLiteral _ _) => []
  | .expr (.numericLiteral _ _) => []
  | .expr (.identifier _ _) => []
  | .expr (.ip _ _ _) => []
  | .expr (.member b m _) => [.expr b, .expr m]
  | .expr (.valuePair b n _) => [.expr b, .expr n]
  | .expr (.booleanExpression b _) => [.expr b]
  | .expr (.unaryExpression _ a _) => [.expr a]
  | .expr (.funCallExpression c args _) =>
      .expr c :: args.toList.map ANode.expr
  | .expr (.concatExpression b _) => b.toList.map ANode.expr
  | .expr (.binaryExpression l r _ _) => [.expr l, .expr r]
  | .expr (.logicalExpression l r _ _) => [.expr l, .expr r]
  | .stmt (.expressionStatement b _) => [.expr b]
  | .stmt (.includeStatement m _) => [.expr m]
  | .stmt (.importStatement m _) => [.expr m]
  | .stmt (.callStatement s _) => [.expr s]
  | .stmt (.declareStatement id _ _) => [.expr id]
  | .stmt (.addStatement l r _ _) => [.expr l, .expr r]
  | .stmt (.setStatement l r _ _) => [.expr l, .expr r]
  | .stmt (.unsetStatement id _) => [.expr id]
  | .stmt (.returnStatement _ _) => []
  | .stmt (.errorStatement _ m _) => messageChildren m
  | .stmt (.restartStatement _) => []
  | .stmt (.syntheticStatement r _) => [.expr r]
  | .stmt (.logStatement c _) => [.expr c]
  | .stmt (.ifStatement t c a _) =>
      .expr t :: c.toList.map ANode.stmt ++ altChildren a
  | .stmt (.subroutineStatement id b _) =>
      .expr id :: b.toList.map ANode.stmt
  | .stmt (.aclStatement id b _) => .expr id :: b.toList.map ANode.expr
  | .stmt (.backendStatement id b _) => .expr id :: b.toList.map ANode.bdef
  | .stmt (.tableStatement id b _) => .expr id :: b.map ANode.tdef
  | .bdef (.mk _ v _) => backendChildren v
  | .tdef _ => []
  | .prog p => p.body.toList.map ANode.stmt

/-! ### Lexer/parser boundary

`Token` is the lexer's token contract (kind and literal value; the
location is not needed by the claims below).  The `Parser` class itself
is not part of the sources; following the spec, its cursor is modelled
as an explicit integer index into the token list that can be saved
(`getCursor`, here the `cursor` field), restored (`jumpTo`) and advanced
(`take`/`read`), with `peek` returning the token under the cursor
without advancing. -/

structure Token where
  type : String
  value : String
deriving Repr, DecidableEq

/-- Modelled from the spec: the parser's saved/restored token cursor —
an integer index into the immutable token buffer. -/
structure PState where
  tokens : List Token
  cursor : Nat
deriving Repr, DecidableEq

/-- Token under the cursor, without advancing (`p.peek()`); `none` at
end of input. -/
def peekT (p : PState) : Option Token :=
  p.tokens[p.cursor]?

/-- Advance the cursor by one (`p.take()`). -/
def takeT (p : PState) : PState :=
  { p with cursor := p.cursor + 1 }

/-- Return the token under the cursor and advance (`p.read()`). -/
def readT (p : PState) : Option Token × PState :=
  (peekT p, takeT p)

/-- Restore a saved cursor (`p.jumpTo(backup)`). -/
def jumpTo (p : PState) (c : Nat) : PState :=
  { p with cursor := c }

/-- Errors a parsing function can raise: a `SyntaxError` (the only error
type the parser itself creates) or any other exception. -/
inductive PErr where
  | synErr (msg : String)
  | otherErr (msg : String)
deriving Repr, DecidableEq

/-! ### Literal classification (`parseLiteral`) -/

/-- The unit-suffix test `/(ms|s|m|h|d|y)$/.test(value)`: the token text
ends in one of the recognized unit suffixes. -/
def durationSuffix (v : String) : Bool :=
  ["ms", "s", "m", "h", "d", "y"].any (fun suf => suf.data.isSuffixOf v.data)

/-- Modelled JS builtin: `Number.isNaN(Number(s))`, restricted to the
shapes the lexer's numeric tokens can take — `Number(s)` is a number
(not NaN) exactly when `s` consists of decimal digits with at most one
decimal point and at least one digit.  The general theorems below hold
for every predicate in this position; this concrete model is used only
to evaluate the classifier on concrete tokens. -/
def jsNumberIsNaN (s : String) : Bool :=
  !(s.data.any Char.isDigit &&
    s.data.all (fun c => c.isDigit || c == '.') &&
    (s.data.filter (fun c => c == '.')).length ≤ 1)

/-- JS `value.startsWith('0')`: the first character is `0`. -/
def startsWithZero (s : String) : Bool :=
  match s.data with
  | '0' :: _ => true
  | _ => false

/-- The literal classifier `parseLiteral` of the parser
(`src/unnamed/part_000`), parameterized by the NaN test of the host's
`Number` builtin.  `finishNode` (not part of the sources) only attaches
a location, which is not modelled: built literals carry `none`.
Returns `none` inside `ok` for a token that is no literal. -/
def parseLiteral (numIsNaN : String → Bool) (t : Token) :
    Except PErr (Option Expression) :=
  if t.type == "boolean" then
    .ok (some (.booleanLiteral t.value none))
  else if t.type == "string" then
    .ok (some (.stringLiteral t.value none))
  else if t.type == "numeric" then
    if durationSuffix t.value then
      .ok (some (.durationLiteral t.value none))
    else if !numIsNaN t.value then
      if t.value.length != 1 && startsWithZero t.value then
        .error (.synErr "invalid number")
      else
        .ok (some (.numericLiteral t.value none))
    else
      .error (.synErr "invalid token")
  else
    .ok none

/-! ### Implicit concatenation (`parseExpr`,
`src/parser/expression/index.ts`)

`parseExpr` is embedded over its two callees as parameters:
`opExpr` stands for `parseOperatorExpr` and `attempt` for
`parseHumbleExpr` (both live outside the sources); each takes the parser
state and the token handed to it and either returns an expression with
the advanced state or raises.  The speculative loop is given explicit
fuel (one unit per remaining token plus one); the theorems below are
stated so that they do not depend on the fuel value. -/

/-- Modelled from the spec: `isToken(token, type, value)` of
`src/utils/token.ts` (not part of the sources) — kind and literal value
both match. -/
def isToken (t : Token) (ty v : String) : Bool :=
  t.type == ty && t.value == v

/-- A parsing function for the speculative attempts: `parseHumbleExpr`
receives the parser and the token read for it (possibly `undefined` when
input ran out after a literal `+`). -/
abbrev AttemptFn := PState → Option Token → Except PErr (Expression × PState)

/-- A parsing function for the leading operator expression:
`parseOperatorExpr` receives the parser and a definite token. -/
abbrev OpFn := PState → Token → Except PErr (Expression × PState)

/-- The speculative accumulation loop of `parseExpr` (`while (nextToken)`):
peeks the next token, consumes it, stops at a literal `;`, skips a
literal `+` by reading the following token, then attempts one more
expression; on success the expression is accumulated and the cursor
position saved, on a `SyntaxError` the loop stops (the error is
suppressed), and any other error propagates.  Returns the accumulated
buffer and the last saved cursor. -/
def concatLoop (attempt : AttemptFn) :
    Nat → PState → Nat → List Expression →
    Except PErr (List Expression × Nat × PState)
  | 0, p, backup, buf => .ok (buf, backup, p)
  | fuel + 1, p, backup, buf =>
    match peekT p with
    | none => .ok (buf, backup, p)
    | some nextToken =>
      let p1 := takeT p
      if isToken nextToken "symbol" ";" then
        .ok (buf, backup, p1)
      else
        let (tok, p2) :=
          if isToken nextToken "symbol" "+" then readT p1
          else (some nextToken, p1)
        match attempt p2 tok with
        | .ok (e, p3) => concatLoop attempt fuel p3 p3.cursor (buf ++ [e])
        | .error (.synErr _) => .ok (buf, backup, p2)
        | .error e => .error e

/-- Converts a Lean list of expressions into the explicit `ExprList`. -/
def ExprList.ofList : List Expression → ExprList
  | [] => .nil
  | e :: tl => .cons e (ExprList.ofList tl)

/-- The expression entry point `parseExpr`: parses the leading operator
expression, returns it directly under `shortcut` or when the handed
token is a literal `;`, and otherwise runs the implicit-concatenation
loop, backtracks the cursor to the last saved position, and wraps the
buffer in a `ConcatExpression` exactly when more than one expression was
accumulated.  (`startNode`/`finishNode` only attach the location, which
is not modelled: a built `ConcatExpression` carries `none`.) -/
def parseExpr (opExpr : OpFn) (attempt : AttemptFn) (p : PState)
    (token : Token) (shortcut : Bool) : Except PErr (Expression × PState) :=
  match opExpr p token with
  | .error e => .error e
  | .ok (expr, p1) =>
    if shortcut then .ok (expr, p1)
    else if isToken token "symbol" ";" then .ok (expr, p1)
    else
      match concatLoop attempt (p1.tokens.length + 1) p1 p1.cursor [expr] with
      | .error e => .error e
      | .ok (buf, backup2, p2) =>
        let p3 := jumpTo p2 backup2
        if buf.length == 1 then .ok (expr, p3)
        else .ok (.concatExpression (ExprList.ofList buf) none, p3)

/-! ### Blank-line accounting for statement lists

Helpers to read off, from the document list `printStatements` builds for
two consecutive statements, how many hard breaks separate the first
statement's rendering from the second's: `gapRun` is the run of
hard breaks after the first non-break document, and a run of `k` hard
breaks renders as `k` newlines, i.e. `k - 1` blank lines between the two
renderings. -/

/-- Tests for the hard line break. -/
def isHardlineD : Doc → Bool
  | .hardline => true
  | _ => false

/-- Length of the run of hard breaks separating the first rendered
statement from the second in a statement-list document. -/
def gapRun (ds : List Doc) : Nat :=
  (((ds.dropWhile isHardlineD).drop 1).takeWhile isHardlineD).length

/-- Number of blank lines between the first and the second rendered
statement. -/
def blankLinesBetween (ds : List Doc) : Nat :=
  gapRun ds - 1

/-- Concrete statement spanning source lines 1–3: an `if` whose single
consequent statement sits on line 2 and whose closing brace is on
line 3. -/
def ifSpanningStmt : Statement :=
  .ifStatement (.identifier "x" none)
    (.cons (.restartStatement (some ⟨⟨10, 2, 2⟩, ⟨18, 2, 10⟩⟩)) .nil)
    .noAlt (some ⟨⟨0, 1, 0⟩, ⟨20, 3, 1⟩⟩)

/-- Concrete statement recorded on source line 4. -/
def lineFourStmt : Statement :=
  .restartStatement (some ⟨⟨22, 4, 0⟩, ⟨30, 4, 8⟩⟩)

/-! ### Helper lemmas -/

theorem str_paren_space (x : String) : ")" ++ (" " ++ x) = ") " ++ x := by
  rw [← String.append_assoc]
  rfl

theorem str_quote_slash (x : String) : "\"" ++ ("/" ++ x) = "\"/" ++ x := by
  rw [← String.append_assoc]
  rfl

theorem flatMap_locVal (l : Option Location) :
    (locVal l).flatMap childVals = [] := by
  cases l <;> rfl

theorem childVals_vstr (s : String) : childVals (.vstr s) = [] := rfl

theorem childVals_vnum (n : Nat) : childVals (.vnum n) = [] := rfl

theorem childVals_vnone : childVals .vnone = [] := rfl

theorem childVals_vloc (l : Location) : childVals (.vloc l) = [] := rfl

theorem childVals_vnode (n : ANode) : childVals (.vnode n) = [n] := rfl

theorem childVals_varr (ns : List ANode) : childVals (.varr ns) = ns := rfl

theorem childVals_cidrVal (c : Option Nat) : childVals (cidrVal c) = [] := by
  cases c <;> rfl

theorem childVals_optExprVal (m : Option Expression) :
    childVals (optExprVal m) = messageChildren m := by
  cases m <;> rfl

theorem childVals_altVal (a : IfAlt) :
    childVals (altVal a) = altChildren a := by
  cases a <;> rfl

theorem childVals_backendVal (v : BackendValue) :
    childVals (backendVal v) = backendChildren v := by
  cases v <;> rfl

/-- The speculative loop only ever appends to the accumulation buffer. -/
theorem concatLoop_extends (attempt : AttemptFn) :
    ∀ (fuel : Nat) (p : PState) (backup : Nat) (buf buf' : List Expression)
      (b' : Nat) (p' : PState),
      concatLoop attempt fuel p backup buf = .ok (buf', b', p') →
      ∃ tl, buf' = buf ++ tl := by
  intro fuel
  induction fuel with
  | zero =>
    intro p backup buf buf' b' p' h
    simp [concatLoop] at h
    exact ⟨[], by simp [h.1.symm]⟩
  | succ n ih =>
    intro p backup buf buf' b' p' h
    rw [concatLoop] at h
    cases hpk : peekT p with
    | none =>
      rw [hpk] at h
      simp at h
      exact ⟨[], by simp [h.1.symm]⟩
    | some t =>
      rw [hpk] at h
      by_cases hsemi : isToken t "symbol" ";" = true
      · simp [hsemi] at h
        exact ⟨[], by simp [h.1.symm]⟩
      · simp only [Bool.not_eq_true] at hsemi
        simp only [hsemi, Bool.false_eq_true, if_false] at h
        split at h
        next e2 p3 hatt =>
          obtain ⟨tl, htl⟩ := ih _ _ _ _ _ _ h
          exact ⟨e2 :: tl, by simp [htl]⟩
        next msg hatt =>
          simp at h
          exact ⟨[], by simp [h.1.symm]⟩
        next e hne hatt =>
          simp at h

/-- If the attempts can only fail with a `SyntaxError`, the speculative
loop never raises. -/
theorem concatLoop_ok_of_no_other (attempt : AttemptFn)
    (hatt : ∀ (q : PState) (t : Option Token) (m : String),
      attempt q t ≠ .error (.otherErr m)) :
    ∀ (fuel : Nat) (p : PState) (backup : Nat) (buf : List Expression),
      ∃ r, concatLoop attempt fuel p backup buf = .ok r := by
  intro fuel
  induction fuel with
  | zero => intro p backup buf; exact ⟨_, rfl⟩
  | succ n ih =>
    intro p backup buf
    rw [concatLoop]
    cases hpk : peekT p with
    | none => exact ⟨_, rfl⟩
    | some t =>
      by_cases hsemi : isToken t "symbol" ";" = true
      · simp only [hsemi, if_true]
        exact ⟨_, rfl⟩
      · simp only [Bool.not_eq_true] at hsemi
        simp only [hsemi, Bool.false_eq_true, if_false]
        split
        next e2 p3 h2 => exact ih _ _ _
        next msg h2 => exact ⟨_, rfl⟩
        next e hne h2 =>
          cases e with
          | synErr m => exact absurd rfl (hne m)
          | otherErr m => exact absurd h2 (hatt _ _ m)

/-- The numeric branch of `parseLiteral`, with the token-kind dispatch
discharged. -/
theorem parseLiteral_numeric (f : String → Bool) (v : String) :
    parseLiteral f ⟨"numeric", v⟩ =
      (if durationSuffix v then .ok (some (.durationLiteral v none))
       else if !f v then
         (if v.length != 1 && startsWithZero v then
           .error (.synErr "invalid number")
          else .ok (some (.numericLiteral v none)))
       else .error (.synErr "invalid token")) := by
  simp [parseLiteral]

theorem isHardlineD_hardline : isHardlineD Doc.hardline = true := rfl

/-- No statement ever prints to a bare hard break. -/
theorem printStmt_not_hardline (s : Statement) (st : State) :
    isHardlineD (printStmt s st).1 = false := by
  cases s with
  | ifStatement t c a l =>
    rcases hc : printStmtsAux st c with ⟨ds, st1⟩
    cases a with
    | noAlt => simp [printStmt, hc, isHardlineD, dconcat]
    | elseIf s' =>
      rcases hs' : printStmt s' st1 with ⟨d2, st2⟩
      simp [printStmt, hc, hs', isHardlineD, dconcat]
    | elseBlock b =>
      rcases hb : printStmtsAux st1 b with ⟨d2, st2⟩
      simp [printStmt, hc, hb, isHardlineD, dconcat]
  | subroutineStatement id b l =>
    rcases hb : printStmtsAux st b with ⟨ds, st1⟩
    simp [printStmt, hb, isHardlineD, dconcat]
  | errorStatement a m l =>
    cases m <;> simp [printStmt, isHardlineD, dconcat]
  | _ => simp [printStmt, isHardlineD, dconcat]

theorem dropWhile_hardline_replicate (k : Nat) (rest : List Doc) :
    List.dropWhile isHardlineD (List.replicate k Doc.hardline ++ rest) =
      List.dropWhile isHardlineD rest := by
  induction k with
  | zero => rfl
  | succ n ih =>
    simp only [List.replicate_succ, List.cons_append, List.dropWhile_cons,
      isHardlineD_hardline, if_true]
    exact ih

/-! ### The claims -/

/-- C2: in implicit-concatenation parsing, `parseExpr` returns a
`ConcatExpression` exactly when at least two expressions were
accumulated, in both directions: whatever the accumulation loop returns,
the result is the `ConcatExpression` over exactly that buffer when the
buffer holds two or more expressions, and the plain leading expression
when it holds one (fourth conjunct); conversely any successful result is
either the leading expression unchanged or a `ConcatExpression` with at
least two members (first conjunct).  A literal `;` handed to it as the
initial token makes it return the leading expression directly, and a
literal `;` under the cursor stops the accumulation loop immediately at
every iteration — for any buffer, saved cursor and attempt function
alike, without an attempt and without the saved cursor moving. -/
theorem parseExpr_concat_iff :
    (∀ (opExpr : OpFn) (attempt : AttemptFn) (p : PState) (token : Token)
       (expr : Expression) (p1 : PState) (e : Expression) (pf : PState),
       opExpr p token = .ok (expr, p1) →
       parseExpr opExpr attempt p token false = .ok (e, pf) →
       e = expr ∨ ∃ tl, tl ≠ [] ∧
         e = .concatExpression (ExprList.ofList (expr :: tl)) none)
    ∧ (∀ (opExpr : OpFn) (attempt : AttemptFn) (p : PState) (token : Token)
         (expr : Expression) (p1 : PState),
         isToken token "symbol" ";" = true →
         opExpr p token = .ok (expr, p1) →
         parseExpr opExpr attempt p token false = .ok (expr, p1))
    ∧ (∀ (opExpr : OpFn) (attempt : AttemptFn) (p : PState) (token : Token)
         (expr : Expression) (p1 : PState) (t : Token),
         isToken token "symbol" ";" = false →
         opExpr p token = .ok (expr, p1) →
         peekT p1 = some t →
         isToken t "symbol" ";" = true →
         parseExpr opExpr attempt p token false = .ok (expr, p1))
    ∧ (∀ (opExpr : OpFn) (attempt : AttemptFn) (p : PState) (token : Token)
         (expr : Expression) (p1 : PState) (buf : List Expression) (b2 : Nat)
         (p2 : PState),
         opExpr p token = .ok (expr, p1) →
         isToken token "symbol" ";" = false →
         concatLoop attempt (p1.tokens.length + 1) p1 p1.cursor [expr] =
           .ok (buf, b2, p2) →
         parseExpr opExpr attempt p token false =
           .ok ((if 2 ≤ buf.length then
             .concatExpression (ExprList.ofList buf) none else expr),
             jumpTo p2 b2))
    ∧ (∀ (attempt : AttemptFn) (fuel : Nat) (p : PState) (backup : Nat)
         (buf : List Expression) (t : Token),
         peekT p = some t →
         isToken t "symbol" ";" = true →
         concatLoop attempt (fuel + 1) p backup buf =
           .ok (buf, backup, takeT p)) := by
  refine ⟨?_, ?_, ?_, ?_, ?_⟩
  · intro opExpr attempt p token expr p1 e pf hop hpe
    rw [parseExpr, hop] at hpe
    simp only [Bool.false_eq_true, if_false] at hpe
    by_cases htok : isToken token "symbol" ";" = true
    · simp only [htok, if_true] at hpe
      simp at hpe
      exact Or.inl hpe.1.symm
    · simp only [Bool.not_eq_true] at htok
      simp only [htok, Bool.false_eq_true, if_false] at hpe
      split at hpe
      next err heq => simp at hpe
      next buf b2 p2 heq =>
        obtain ⟨tl, htl⟩ := concatLoop_extends attempt _ _ _ _ _ _ _ heq
        simp only [List.singleton_append] at htl
        subst htl
        by_cases hlen : ((expr :: tl).length == 1) = true
        · simp only [hlen, if_true] at hpe
          simp at hpe
          exact Or.inl hpe.1.symm
        · simp only [hlen, Bool.false_eq_true, if_false] at hpe
          simp at hpe
          refine Or.inr ⟨tl, ?_, hpe.1.symm⟩
          intro hnil
          subst hnil
          simp at hlen
  · intro opExpr attempt p token expr p1 htok hop
    rw [parseExpr, hop]
    simp [htok]
  · intro opExpr attempt p token expr p1 t htok hop hpk hsemi
    rw [parseExpr, hop]
    simp only [Bool.false_eq_true, if_false, htok]
    have hloop : concatLoop attempt (p1.tokens.length + 1) p1 p1.cursor [expr] =
        .ok ([expr], p1.cursor, takeT p1) := by
      rw [concatLoop, hpk]
      simp [hsemi]
    rw [hloop]
    simp [jumpTo, takeT]
  · intro opExpr attempt p token expr p1 buf b2 p2 hop htok hloop
    rw [parseExpr, hop]
    simp only [Bool.false_eq_true, if_false, htok]
    rw [hloop]
    obtain ⟨tl, htl⟩ := concatLoop_extends attempt _ _ _ _ _ _ _ hloop
    subst htl
    cases tl with
    | nil => simp
    | cons x xs =>
      have h1 : (([expr] ++ x :: xs).length == 1) = false := by simp
      have h2 : 2 ≤ ([expr] ++ x :: xs).length := by simp
      simp [h1, h2]
  · intro attempt fuel p backup buf t hpk hsemi
    rw [concatLoop, hpk]
    simp [hsemi]

/-- C2 witness: with two expressions accumulated a `ConcatExpression`
over exactly those two is returned, and with a `;` under the cursor the
loop stops at once and the plain leading expression comes back with the
cursor unmoved. -/
theorem parseExpr_concat_iff_witness :
    parseExpr (fun p _ => .ok (.identifier "a" none, p))
      (fun p _ => .ok (.identifier "c" none, takeT p))
      ⟨[⟨"ident", "b"⟩], 0⟩ ⟨"ident", "a"⟩ false =
      .ok (.concatExpression
        (.cons (.identifier "a" none) (.cons (.identifier "c" none) .nil))
        none, ⟨[⟨"ident", "b"⟩], 2⟩)
    ∧ parseExpr (fun p _ => .ok (.identifier "a" none, p))
      (fun _ _ => .error (.synErr "x"))
      ⟨[⟨"symbol", ";"⟩], 0⟩ ⟨"ident", "a"⟩ false =
      .ok (.identifier "a" none, ⟨[⟨"symbol", ";"⟩], 0⟩) :=
  ⟨parseExpr_concat_iff.2.2.2.1 (fun p _ => .ok (.identifier "a" none, p))
    (fun p _ => .ok (.identifier "c" none, takeT p))
    ⟨[⟨"ident", "b"⟩], 0⟩ ⟨"ident", "a"⟩ (.identifier "a" none)
    ⟨[⟨"ident", "b"⟩], 0⟩
    [.identifier "a" none, .identifier "c" none] 2 ⟨[⟨"ident", "b"⟩], 2⟩
    rfl rfl rfl,
  parseExpr_concat_iff.2.2.1 (fun p _ => .ok (.identifier "a" none, p))
    (fun _ _ => .error (.synErr "x")) ⟨[⟨"symbol", ";"⟩], 0⟩
    ⟨"ident", "a"⟩ (.identifier "a" none) ⟨[⟨"symbol", ";"⟩], 0⟩
    ⟨"symbol", ";"⟩ rfl rfl rfl rfl⟩

/-- C3: a `SyntaxError` raised by a speculative attempt inside the
implicit-concatenation loop is caught and never surfaced — if the
attempts can only fail with `SyntaxError`s, `parseExpr` succeeds.  At
every loop iteration, for any buffer and saved cursor: a successful
attempt appends the expression and saves the cursor position reached
after it (fourth conjunct), a `SyntaxError` stops the loop with the
buffer and the saved cursor unchanged — so the cursor is restored to the
position saved after the last successfully accumulated expression
(fifth conjunct, and second conjunct at the first iteration) — and any
non-`SyntaxError` exception propagates out of the loop (sixth conjunct,
and third conjunct at the first iteration).  End to end: after one
successful accumulation, a `SyntaxError` from the next attempt yields
the two-member `ConcatExpression` with the cursor rolled back exactly to
the position reached after the accumulated expression (seventh
conjunct), and a non-`SyntaxError` there reaches the caller unchanged
(eighth conjunct). -/
theorem parseExpr_syntax_suppression :
    (∀ (opExpr : OpFn) (attempt : AttemptFn) (p : PState) (token : Token)
       (expr : Expression) (p1 : PState),
       opExpr p token = .ok (expr, p1) →
       (∀ (q : PState) (t : Option Token) (m : String),
         attempt q t ≠ .error (.otherErr m)) →
       ∃ r, parseExpr opExpr attempt p token false = .ok r)
    ∧ (∀ (opExpr : OpFn) (attempt : AttemptFn) (p : PState) (token : Token)
         (expr : Expression) (p1 : PState) (t : Token) (m : String),
         opExpr p token = .ok (expr, p1) →
         isToken token "symbol" ";" = false →
         peekT p1 = some t →
         isToken t "symbol" ";" = false →
         isToken t "symbol" "+" = false →
         attempt (takeT p1) (some t) = .error (.synErr m) →
         parseExpr opExpr attempt p token false = .ok (expr, p1))
    ∧ (∀ (opExpr : OpFn) (attempt : AttemptFn) (p : PState) (token : Token)
         (expr : Expression) (p1 : PState) (t : Token) (m : String),
         opExpr p token = .ok (expr, p1) →
         isToken token "symbol" ";" = false →
         peekT p1 = some t →
         isToken t "symbol" ";" = false →
         isToken t "symbol" "+" = false →
         attempt (takeT p1) (some t) = .error (.otherErr m) →
         parseExpr opExpr attempt p token false =
           .error (.otherErr m))
    ∧ (∀ (attempt : AttemptFn) (fuel : Nat) (p : PState) (backup : Nat)
         (buf : List Expression) (t : Token) (e2 : Expression) (p3 : PState),
         peekT p = some t →
         isToken t "symbol" ";" = false →
         isToken t "symbol" "+" = false →
         attempt (takeT p) (some t) = .ok (e2, p3) →
         concatLoop attempt (fuel + 1) p backup buf =
           concatLoop attempt fuel p3 p3.cursor (buf ++ [e2]))
    ∧ (∀ (attempt : AttemptFn) (fuel : Nat) (p : PState) (backup : Nat)
         (buf : List Expression) (t : Token) (m : String),
         peekT p = some t →
         isToken t "symbol" ";" = false →
         isToken t "symbol" "+" = false →
         attempt (takeT p) (some t) = .error (.synErr m) →
         concatLoop attempt (fuel + 1) p backup buf =
           .ok (buf, backup, takeT p))
    ∧ (∀ (attempt : AttemptFn) (fuel : Nat) (p : PState) (backup : Nat)
         (buf : List Expression) (t : Token) (m : String),
         peekT p = some t →
         isToken t "symbol" ";" = false →
         isToken t "symbol" "+" = false →
         attempt (takeT p) (some t) = .error (.otherErr m) →
         concatLoop attempt (fuel + 1) p backup buf =
           .error (.otherErr m))
    ∧ (∀ (opExpr : OpFn) (attempt : AttemptFn) (p : PState) (token : Token)
         (expr : Expression) (p1 : PState) (t : Token) (e2 : Expression)
         (p3 : PState) (t2 : Token) (m : String),
         opExpr p token = .ok (expr, p1) →
         isToken token "symbol" ";" = false →
         peekT p1 = some t →
         isToken t "symbol" ";" = false →
         isToken t "symbol" "+" = false →
         attempt (takeT p1) (some t) = .ok (e2, p3) →
         peekT p3 = some t2 →
         isToken t2 "symbol" ";" = false →
         isToken t2 "symbol" "+" = false →
         attempt (takeT p3) (some t2) = .error (.synErr m) →
         parseExpr opExpr attempt p token false =
           .ok (.concatExpression (ExprList.ofList [expr, e2]) none, p3))
    ∧ (∀ (opExpr : OpFn) (attempt : AttemptFn) (p : PState) (token : Token)
         (expr : Expression) (p1 : PState) (t : Token) (e2 : Expression)
         (p3 : PState) (t2 : Token) (m : String),
         opExpr p token = .ok (expr, p1) →
         isToken token "symbol" ";" = false →
         peekT p1 = some t →
         isToken t "symbol" ";" = false →
         isToken t "symbol" "+" = false →
         attempt (takeT p1) (some t) = .ok (e2, p3) →
         peekT p3 = some t2 →
         isToken t2 "symbol" ";" = false →
         isToken t2 "symbol" "+" = false →
         attempt (takeT p3) (some t2) = .error (.otherErr m) →
         parseExpr opExpr attempt p token false =
           .error (.otherErr m)) := by
  have hstep : ∀ (attempt : AttemptFn) (fuel : Nat) (p : PState)
      (backup : Nat) (buf : List Expression) (t : Token) (e2 : Expression)
      (p3 : PState),
      peekT p = some t →
      isToken t "symbol" ";" = false →
      isToken t "symbol" "+" = false →
      attempt (takeT p) (some t) = .ok (e2, p3) →
      concatLoop attempt (fuel + 1) p backup buf =
        concatLoop attempt fuel p3 p3.cursor (buf ++ [e2]) := by
    intro attempt fuel p backup buf t e2 p3 hpk hsemi hplus hatt
    rw [concatLoop, hpk]
    simp [hsemi, hplus, hatt]
  have hroll : ∀ (attempt : AttemptFn) (fuel : Nat) (p : PState)
      (backup : Nat) (buf : List Expression) (t : Token) (m : String),
      peekT p = some t →
      isToken t "symbol" ";" = false →
      isToken t "symbol" "+" = false →
      attempt (takeT p) (some t) = .error (.synErr m) →
      concatLoop attempt (fuel + 1) p backup buf =
        .ok (buf, backup, takeT p) := by
    intro attempt fuel p backup buf t m hpk hsemi hplus hatt
    rw [concatLoop, hpk]
    simp [hsemi, hplus, hatt]
  have hprop : ∀ (attempt : AttemptFn) (fuel : Nat) (p : PState)
      (backup : Nat) (buf : List Expression) (t : Token) (m : String),
      peekT p = some t →
      isToken t "symbol" ";" = false →
      isToken t "symbol" "+" = false →
      attempt (takeT p) (some t) = .error (.otherErr m) →
      concatLoop attempt (fuel + 1) p backup buf =
        .error (.otherErr m) := by
    intro attempt fuel p backup buf t m hpk hsemi hplus hatt
    rw [concatLoop, hpk]
    simp [hsemi, hplus, hatt]
  have hlen : ∀ (p1 : PState) (t : Token), peekT p1 = some t →
      ∃ k, p1.tokens.length = k + 1 := by
    intro p1 t hpk1
    cases hT : p1.tokens with
    | nil =>
      exfalso
      simp [peekT, hT] at hpk1
    | cons a as => exact ⟨as.length, by simp [hT]⟩
  refine ⟨?_, ?_, ?_, hstep, hroll, hprop, ?_, ?_⟩
  · intro opExpr attempt p token expr p1 hop hatt
    rw [parseExpr, hop]
    simp only [Bool.false_eq_true, if_false]
    by_cases htok : isToken token "symbol" ";" = true
    · simp only [htok, if_true]
      exact ⟨_, rfl⟩
    · simp only [Bool.not_eq_true] at htok
      simp only [htok, Bool.false_eq_true, if_false]
      obtain ⟨⟨buf, b2, p2⟩, hr⟩ :=
        concatLoop_ok_of_no_other attempt hatt (p1.tokens.length + 1) p1
          p1.cursor [expr]
      rw [hr]
      by_cases hlen : (buf.length == 1) = true
      · simp only [hlen, if_true]
        exact ⟨_, rfl⟩
      · simp only [Bool.not_eq_true] at hlen
        simp only [hlen, Bool.false_eq_true, if_false]
        exact ⟨_, rfl⟩
  · intro opExpr attempt p token expr p1 t m hop htok hpk hsemi hplus hatt
    rw [parseExpr, hop]
    simp only [Bool.false_eq_true, if_false, htok]
    have hloop : concatLoop attempt (p1.tokens.length + 1) p1 p1.cursor [expr] =
        .ok ([expr], p1.cursor, takeT p1) := by
      rw [concatLoop, hpk]
      simp [hsemi, hplus, hatt]
    rw [hloop]
    simp [jumpTo, takeT]
  · intro opExpr attempt p token expr p1 t m hop htok hpk hsemi hplus hatt
    rw [parseExpr, hop]
    simp only [Bool.false_eq_true, if_false, htok]
    have hloop : concatLoop attempt (p1.tokens.length + 1) p1 p1.cursor [expr] =
        .error (.otherErr m) := by
      rw [concatLoop, hpk]
      simp [hsemi, hplus, hatt]
    rw [hloop]
  · intro opExpr attempt p token expr p1 t e2 p3 t2 m hop htok hpk1 hs1 hp1
      hatt1 hpk2 hs2 hp2 hatt2
    obtain ⟨k, hk⟩ := hlen p1 t hpk1
    rw [parseExpr, hop]
    simp only [Bool.false_eq_true, if_false, htok]
    have hloop : concatLoop attempt (p1.tokens.length + 1) p1 p1.cursor
        [expr] = .ok ([expr, e2], p3.cursor, takeT p3) := by
      rw [hk]
      rw [hstep attempt (k + 1) p1 p1.cursor [expr] t e2 p3 hpk1 hs1 hp1
        hatt1]
      rw [hroll attempt k p3 p3.cursor ([expr] ++ [e2]) t2 m hpk2 hs2
        hp2 hatt2]
      simp
    rw [hloop]
    simp [jumpTo, takeT]
  · intro opExpr attempt p token expr p1 t e2 p3 t2 m hop htok hpk1 hs1 hp1
      hatt1 hpk2 hs2 hp2 hatt2
    obtain ⟨k, hk⟩ := hlen p1 t hpk1
    rw [parseExpr, hop]
    simp only [Bool.false_eq_true, if_false, htok]
    have hloop : concatLoop attempt (p1.tokens.length + 1) p1 p1.cursor
        [expr] = .error (.otherErr m) := by
      rw [hk]
      rw [hstep attempt (k + 1) p1 p1.cursor [expr] t e2 p3 hpk1 hs1 hp1
        hatt1]
      rw [hprop attempt k p3 p3.cursor ([expr] ++ [e2]) t2 m hpk2 hs2
        hp2 hatt2]
    rw [hloop]

/-- C3 witness: an attempt that succeeds once and then raises a
`SyntaxError` yields the two-member concatenation with the cursor
rolled back to the position saved after the accumulated expression (not
to where the failing attempt stopped), and a first-attempt `SyntaxError`
is likewise suppressed with the leading expression returned and the
cursor restored. -/
theorem parseExpr_syntax_suppression_witness :
    parseExpr (fun p _ => .ok (.identifier "a" none, p))
      (fun q _ => if q.cursor == 1 then .ok (.identifier "c" none, takeT q)
        else .error (.synErr "x"))
      ⟨[⟨"ident", "tb"⟩, ⟨"ident", "td"⟩, ⟨"ident", "te"⟩], 0⟩
      ⟨"ident", "a"⟩ false =
      .ok (.concatExpression
        (.cons (.identifier "a" none) (.cons (.identifier "c" none) .nil))
        none,
        ⟨[⟨"ident", "tb"⟩, ⟨"ident", "td"⟩, ⟨"ident", "te"⟩], 2⟩)
    ∧ parseExpr (fun p _ => .ok (.identifier "a" none, p))
      (fun _ _ => .error (.synErr "x"))
      ⟨[⟨"ident", "b"⟩], 0⟩ ⟨"ident", "a"⟩ false =
      .ok (.identifier "a" none, ⟨[⟨"ident", "b"⟩], 0⟩) :=
  ⟨parseExpr_syntax_suppression.2.2.2.2.2.2.1
    (fun p _ => .ok (.identifier "a" none, p))
    (fun q _ => if q.cursor == 1 then .ok (.identifier "c" none, takeT q)
      else .error (.synErr "x"))
    ⟨[⟨"ident", "tb"⟩, ⟨"ident", "td"⟩, ⟨"ident", "te"⟩], 0⟩
    ⟨"ident", "a"⟩ (.identifier "a" none)
    ⟨[⟨"ident", "tb"⟩, ⟨"ident", "td"⟩, ⟨"ident", "te"⟩], 0⟩
    ⟨"ident", "tb"⟩ (.identifier "c" none)
    ⟨[⟨"ident", "tb"⟩, ⟨"ident", "td"⟩, ⟨"ident", "te"⟩], 2⟩
    ⟨"ident", "te"⟩ "x"
    rfl rfl rfl rfl rfl rfl rfl rfl rfl rfl,
  parseExpr_syntax_suppression.2.1 (fun p _ => .ok (.identifier "a" none, p))
    (fun _ _ => .error (.synErr "x")) ⟨[⟨"ident", "b"⟩], 0⟩
    ⟨"ident", "a"⟩ (.identifier "a" none) ⟨[⟨"ident", "b"⟩], 0⟩
    ⟨"ident", "b"⟩ "x" rfl rfl rfl rfl rfl rfl⟩

/-- C4: numeric-token classification — `35s` parses to a
`DurationLiteral` with raw value `"35s"`, `035` raises a `SyntaxError`,
`0` parses to a `NumericLiteral`; in general a numeric token is
classified as a duration exactly when it ends in one of the unit
suffixes, and a non-duration numeric token with more than one character
and a leading `0` is a syntax error (for every model of the host's
`Number` NaN test). -/
theorem parseLiteral_classification :
    parseLiteral jsNumberIsNaN ⟨"numeric", "35s"⟩ =
      .ok (some (.durationLiteral "35s" none))
    ∧ parseLiteral jsNumberIsNaN ⟨"numeric", "035"⟩ =
      .error (.synErr "invalid number")
    ∧ parseLiteral jsNumberIsNaN ⟨"numeric", "0"⟩ =
      .ok (some (.numericLiteral "0" none))
    ∧ (∀ (f : String → Bool) (v : String) (r : Option Expression),
        parseLiteral f ⟨"numeric", v⟩ = .ok r →
        ((∃ loc, r = some (.durationLiteral v loc)) ↔
          durationSuffix v = true))
    ∧ (∀ (f : String → Bool) (v : String),
        durationSuffix v = false → 1 < v.length → startsWithZero v = true →
        ∃ m, parseLiteral f ⟨"numeric", v⟩ = .error (.synErr m)) := by
  refine ⟨rfl, rfl, rfl, ?_, ?_⟩
  · intro f v r h
    rw [parseLiteral_numeric] at h
    by_cases hd : durationSuffix v = true
    · simp only [hd, if_true] at h
      simp at h
      subst h
      simp [hd]
    · simp only [Bool.not_eq_true] at hd
      simp only [hd, Bool.false_eq_true, if_false] at h
      constructor
      · intro ⟨loc, hr⟩
        exfalso
        subst hr
        split at h
        · split at h <;> simp at h
        · simp at h
      · intro hc
        rw [hc] at hd
        simp at hd
  · intro f v hd hlen h0
    have hne : (v.length != 1) = true := by
      simp only [bne_iff_ne, ne_eq]
      omega
    rw [parseLiteral_numeric]
    simp only [hd, Bool.false_eq_true, if_false]
    cases hf : f v with
    | true => simp
    | false =>
      simp [hne, h0]

/-- C4 witness: `00` is a non-duration numeric token with more than one
character and a leading zero, so it raises a `SyntaxError`. -/
theorem parseLiteral_classification_witness :
    ∃ m, parseLiteral jsNumberIsNaN ⟨"numeric", "00"⟩ =
      .error (.synErr m) :=
  parseLiteral_classification.2.2.2.2 jsNumberIsNaN "00" rfl (by decide) rfl

/-- C5: the printer always parenthesizes a `BinaryExpression` left
operand that is itself a `BinaryExpression`, regardless of either
operator, and adds no parentheses around a left operand of any other
node type. -/
theorem printBinaryExpression_left_paren (l r : Expression) (op : String)
    (loc : Option Location) (st : State) (nb bk : Bool) :
    flatRender (printExpr (.binaryExpression l r op loc) st nb bk) =
      (if isBinary l then
        "(" ++ flatRender (printExpr l st false false) ++ ")"
      else flatRender (printExpr l st false false)) ++
      " " ++ op ++ " " ++ flatRender (printExpr r st false false) := by
  cases hb : isBinary l <;>
    simp [printExpr, hb, flatRender, flatRenderList, DocList.ofList, dconcat,
      str_paren_space, String.append_assoc, String.append_empty,
      String.empty_append]

/-- C6: a `LogicalExpression` operand is parenthesized by the printer
exactly when it is itself a `LogicalExpression` with operator `&&` under
a parent operator `||` — on either side — and no other combination of
nested logical operators is parenthesized. -/
theorem printLogicalExpression_paren_iff (l r : Expression) (op : String)
    (loc : Option Location) (st : State) (nb bk : Bool) :
    flatRender (printExpr (.logicalExpression l r op loc) st nb bk) =
      (if parenAndUnderOr op l then
        "(" ++ flatRender (printExpr l st false false) ++ ")"
      else flatRender (printExpr l st false false)) ++
      " " ++ op ++ " " ++
      (if parenAndUnderOr op r then
        "(" ++ flatRender (printExpr r st false false) ++ ")"
      else flatRender (printExpr r st false false)) := by
  cases hbl : parenAndUnderOr op l <;> cases hbr : parenAndUnderOr op r <;>
    simp [printExpr, hbl, hbr, flatRender, flatRenderList, DocList.ofList,
      dconcat, str_paren_space, String.append_assoc, String.append_empty,
      String.empty_append]

/-- C8: the child-enumeration primitive `next()` returns exactly the
node's field values that are node instances or arrays (the latter
flattened in place), in field order; scalar fields — operator strings,
literal values, numbers, the `type` tag and the location — never
appear. -/
theorem next_children (n : ANode) : next n = childrenSpec n := by
  cases n with
  | expr e =>
    cases e <;>
      simp [next, fieldValues, childrenSpec, childVals_vstr, childVals_vnum,
        childVals_vnone, childVals_vloc, childVals_vnode, childVals_varr,
        flatMap_locVal, childVals_cidrVal, List.flatMap_append]
  | stmt s =>
    cases s <;>
      simp [next, fieldValues, childrenSpec, childVals_vstr, childVals_vnum,
        childVals_vnone, childVals_vloc, childVals_vnode, childVals_varr,
        flatMap_locVal, childVals_optExprVal, childVals_altVal,
        List.flatMap_append]
  | bdef b =>
    cases b
    simp [next, fieldValues, childrenSpec, childVals_vstr, childVals_vnum,
      childVals_vnone, childVals_vloc, childVals_vnode, childVals_varr,
      flatMap_locVal, childVals_backendVal, List.flatMap_append]
  | tdef t =>
    simp [next, fieldValues, childrenSpec, childVals_vstr, childVals_vnum,
      childVals_vnone, childVals_vloc, childVals_vnode, childVals_varr,
      flatMap_locVal, List.flatMap_append]
  | prog p =>
    simp [next, fieldValues, childrenSpec, childVals_vstr, childVals_vnum,
      childVals_vnone, childVals_vloc, childVals_vnode, childVals_varr,
      flatMap_locVal, List.flatMap_append]

/-- C9: printing an `Ip` node always wraps the address in double quotes,
and the `/cidr` suffix appears exactly when the `cidr` field is present
and nonzero — a cidr of `0` prints identically to an absent cidr. -/
theorem printIp_cidr (v : String) (cidr : Option Nat) (loc : Option Location)
    (st : State) (nb bk : Bool) :
    (flatRender (printExpr (.ip v cidr loc) st nb bk) =
      "\"" ++ v ++ "\"" ++ (match cidr with
        | some c => if c ≠ 0 then "/" ++ toString c else ""
        | none => ""))
    ∧ printExpr (.ip v (some 0) loc) st nb bk =
      printExpr (.ip v none loc) st nb bk := by
  constructor
  · cases cidr with
    | none => simp [printExpr, flatRender, String.append_assoc]
    | some c =>
      by_cases hc : c = 0 <;>
        simp [printExpr, flatRender, hc, str_quote_slash, String.append_assoc]
  · rfl

/-- C10: the duration-suffix check of `parseLiteral` takes priority over
all numeric validation — a numeric token ending in a unit suffix is
returned as a `DurationLiteral` carrying the raw token text, for every
model of the `Number` NaN test alike (so neither the NaN check nor the
leading-zero check is consulted), and in particular `035s` is accepted
as a duration. -/
theorem parseLiteral_duration_priority :
    parseLiteral jsNumberIsNaN ⟨"numeric", "035s"⟩ =
      .ok (some (.durationLiteral "035s" none))
    ∧ (∀ (f g : String → Bool) (v : String),
        durationSuffix v = true →
        parseLiteral f ⟨"numeric", v⟩ =
          .ok (some (.durationLiteral v none))
        ∧ parseLiteral f ⟨"numeric", v⟩ = parseLiteral g ⟨"numeric", v⟩) := by
  refine ⟨rfl, ?_⟩
  intro f g v hd
  constructor
  · simp [parseLiteral, hd]
  · simp [parseLiteral, hd]

/-- C10 witness: `42d` ends in a unit suffix and is returned as a
duration, with the NaN predicate never consulted. -/
theorem parseLiteral_duration_priority_witness :
    parseLiteral jsNumberIsNaN ⟨"numeric", "42d"⟩ =
      .ok (some (.durationLiteral "42d" none))
    ∧ parseLiteral jsNumberIsNaN ⟨"numeric", "42d"⟩ =
      parseLiteral (fun _ => true) ⟨"numeric", "42d"⟩ :=
  parseLiteral_duration_priority.2 jsNumberIsNaN (fun _ => true) "42d" rfl

/-- C7 counterexample: two consecutive statements with recorded start
lines 1 and 4, where the first is an `if` block whose rendering spans
lines 1–3; the printed output contains zero blank lines between the two
renderings, not two — the loop compares line 4 against the counter
already advanced to 4 by the block's body. -/
theorem printStatements_blank_lines_counterexample :
    ifSpanningStmt.loc = some ⟨⟨0, 1, 0⟩, ⟨20, 3, 1⟩⟩
    ∧ lineFourStmt.loc = some ⟨⟨22, 4, 0⟩, ⟨30, 4, 8⟩⟩
    ∧ blankLinesBetween ((printStmtsAux ⟨1⟩
        (.cons ifSpanningStmt (.cons lineFourStmt .nil))).1.dropLast) = 0
    ∧ blankLinesBetween ((printStmtsAux ⟨1⟩
        (.cons ifSpanningStmt (.cons lineFourStmt .nil))).1.dropLast) ≠ 2 :=
  ⟨rfl, rfl, rfl, by decide⟩

/-- C7 (amended): for two consecutive statements with recorded start
lines 1 and 4, where the first statement's rendering leaves the running
line counter unchanged (as every single-line statement does), the
printed output contains exactly two blank lines between the renderings;
and a statement with no recorded location contributes no extra hard
breaks — it follows its predecessor after a single line break. -/
theorem printStatements_blank_lines_amended :
    (∀ (s1 s2 : Statement) (l1 l2 : Location),
       s1.loc = some l1 → l1.start.line = 1 →
       s2.loc = some l2 → l2.start.line = 4 →
       (∀ st : State, (printStmt s1 st).2 = st) →
       blankLinesBetween
         ((printStmtsAux ⟨1⟩ (.cons s1 (.cons s2 .nil))).1.dropLast) = 2)
    ∧ (∀ (s1 s2 : Statement) (st : State),
       s2.loc = none →
       gapRun ((printStmtsAux st (.cons s1 (.cons s2 .nil))).1.dropLast)
         = 1) := by
  constructor
  · intro s1 s2 l1 l2 h1 h1l h2 h2l hpure
    rcases hp1 : printStmt s1 ⟨1⟩ with ⟨d1, st2⟩
    have hst2 : st2 = ⟨1⟩ := by
      have := hpure ⟨1⟩
      rw [hp1] at this
      exact this
    subst hst2
    rcases hp2 : printStmt s2 ⟨4⟩ with ⟨d2, st3⟩
    have hfull : (printStmtsAux ⟨1⟩ (.cons s1 (.cons s2 .nil))).1 =
        [d1, Doc.hardline, Doc.hardline, Doc.hardline, d2, Doc.hardline] := by
      rw [printStmtsAux, h1]
      simp only [h1l]
      norm_num
      rw [hp1]
      rw [printStmtsAux, h2]
      simp only [h2l]
      norm_num
      rw [hp2]
      rw [printStmtsAux]
      simp [List.replicate]
    rw [hfull]
    have hd1 : isHardlineD d1 = false := by
      have := printStmt_not_hardline s1 ⟨1⟩
      rw [hp1] at this
      exact this
    have hd2 : isHardlineD d2 = false := by
      have := printStmt_not_hardline s2 ⟨4⟩
      rw [hp2] at this
      exact this
    simp [blankLinesBetween, gapRun, List.dropLast, List.dropWhile_cons,
      List.takeWhile_cons, hd1, hd2, isHardlineD_hardline]
  · intro s1 s2 st hnone
    rcases hsl : s1.loc with _ | l
    · rcases hp1 : printStmt s1 st with ⟨d1, st2⟩
      rcases hp2 : printStmt s2 ⟨st2.lineNum + 1⟩ with ⟨d2, st3⟩
      have hd1 : isHardlineD d1 = false := by
        have := printStmt_not_hardline s1 st
        rw [hp1] at this
        exact this
      have hd2 : isHardlineD d2 = false := by
        have := printStmt_not_hardline s2 ⟨st2.lineNum + 1⟩
        rw [hp2] at this
        exact this
      have hfull : (printStmtsAux st (.cons s1 (.cons s2 .nil))).1 =
          [d1, Doc.hardline, d2, Doc.hardline] := by
        rw [printStmtsAux, hsl]
        dsimp only
        rw [hp1]
        dsimp only
        rw [printStmtsAux, hnone]
        dsimp only
        rw [hp2]
        dsimp only
        rw [printStmtsAux]
        simp
      rw [hfull]
      simp [gapRun, List.dropLast, List.dropWhile_cons, List.takeWhile_cons,
        hd1, hd2, isHardlineD_hardline]
    · by_cases hlt : st.lineNum < l.start.line
      · rcases hp1 : printStmt s1 ⟨l.start.line⟩ with ⟨d1, st2⟩
        rcases hp2 : printStmt s2 ⟨st2.lineNum + 1⟩ with ⟨d2, st3⟩
        have hd1 : isHardlineD d1 = false := by
          have := printStmt_not_hardline s1 ⟨l.start.line⟩
          rw [hp1] at this
          exact this
        have hd2 : isHardlineD d2 = false := by
          have := printStmt_not_hardline s2 ⟨st2.lineNum + 1⟩
          rw [hp2] at this
          exact this
        have hfull : (printStmtsAux st (.cons s1 (.cons s2 .nil))).1 =
            List.replicate (l.start.line - st.lineNum) Doc.hardline ++
              [d1, Doc.hardline, d2, Doc.hardline] := by
          rw [printStmtsAux, hsl]
          dsimp only
          rw [if_pos hlt]
          dsimp only
          rw [hp1]
          dsimp only
          rw [printStmtsAux, hnone]
          dsimp only
          rw [hp2]
          dsimp only
          rw [printStmtsAux]
          simp
        rw [hfull]
        have hdl : (List.replicate (l.start.line - st.lineNum) Doc.hardline ++
              [d1, Doc.hardline, d2, Doc.hardline]).dropLast =
            List.replicate (l.start.line - st.lineNum) Doc.hardline ++
              [d1, Doc.hardline, d2] := by
          rw [show (List.replicate (l.start.line - st.lineNum) Doc.hardline ++
              [d1, Doc.hardline, d2, Doc.hardline]) =
            (List.replicate (l.start.line - st.lineNum) Doc.hardline ++
              [d1, Doc.hardline, d2]) ++ [Doc.hardline] by simp]
          exact List.dropLast_concat
        rw [hdl]
        simp [gapRun, dropWhile_hardline_replicate, List.dropWhile_cons,
          List.takeWhile_cons, hd1, hd2, isHardlineD_hardline]
      · rcases hp1 : printStmt s1 st with ⟨d1, st2⟩
        rcases hp2 : printStmt s2 ⟨st2.lineNum + 1⟩ with ⟨d2, st3⟩
        have hd1 : isHardlineD d1 = false := by
          have := printStmt_not_hardline s1 st
          rw [hp1] at this
          exact this
        have hd2 : isHardlineD d2 = false := by
          have := printStmt_not_hardline s2 ⟨st2.lineNum + 1⟩
          rw [hp2] at this
          exact this
        have hfull : (printStmtsAux st (.cons s1 (.cons s2 .nil))).1 =
            [d1, Doc.hardline, d2, Doc.hardline] := by
          rw [printStmtsAux, hsl]
          dsimp only
          rw [if_neg hlt]
          dsimp only
          rw [hp1]
          dsimp only
          rw [printStmtsAux, hnone]
          dsimp only
          rw [hp2]
          dsimp only
          rw [printStmtsAux]
          simp
        rw [hfull]
        simp [gapRun, List.dropLast, List.dropWhile_cons, List.takeWhile_cons,
          hd1, hd2, isHardlineD_hardline]

/-- C7 witness: two single-line statements recorded on lines 1 and 4 are
rendered with exactly two blank lines between them, and a statement with
no location follows after a single line break. -/
theorem printStatements_blank_lines_amended_witness :
    blankLinesBetween ((printStmtsAux ⟨1⟩
      (.cons (.restartStatement (some ⟨⟨0, 1, 0⟩, ⟨8, 1, 8⟩⟩))
        (.cons (.restartStatement (some ⟨⟨20, 4, 0⟩, ⟨28, 4, 8⟩⟩))
          .nil))).1.dropLast) = 2
    ∧ gapRun ((printStmtsAux ⟨1⟩
      (.cons (.restartStatement (some ⟨⟨0, 1, 0⟩, ⟨8, 1, 8⟩⟩))
        (.cons (.restartStatement none) .nil))).1.dropLast) = 1 :=
  ⟨printStatements_blank_lines_amended.1
      (.restartStatement (some ⟨⟨0, 1, 0⟩, ⟨8, 1, 8⟩⟩))
      (.restartStatement (some ⟨⟨20, 4, 0⟩, ⟨28, 4, 8⟩⟩))
      ⟨⟨0, 1, 0⟩, ⟨8, 1, 8⟩⟩ ⟨⟨20, 4, 0⟩, ⟨28, 4, 8⟩⟩
      rfl rfl rfl rfl (fun _ => rfl),
    printStatements_blank_lines_amended.2
      (.restartStatement (some ⟨⟨0, 1, 0⟩, ⟨8, 1, 8⟩⟩))
      (.restartStatement none) ⟨1⟩ rfl⟩

end Vacel
